import Mathlib

/-!
Shallow embedding of the type-classification utilities of this repository
(`src/index.ts`, and the second copy `src/unnamed/part_000`).

Runtime values are modelled by the inductive `JSVal`.  Finite numbers are
modelled by integers (the fractional part of a number is never observed by
any function of this code base); `NaN`, `Infinity` and `-Infinity` are
explicit constructors.  `Symbol` and function values carry an abstract
identity, since `===` on them is reference equality.  `Date`, `Map`, `Set`,
`Promise` and `RegExp` instances carry no payload: none of the repository's
functions ever observes their contents — `getRealType` only tags them,
object spread sees no own enumerable property on them, and their default
string form is abstracted below.
-/

inductive JSNum where
  | nan
  | inf
  | negInf
  | int (n : Int)
  deriving DecidableEq

inductive JSVal where
  | num (x : JSNum)
  | str (s : String)
  | bool (b : Bool)
  | bigint (n : Int)
  | symbol (id : Nat)
  | undefined
  | null
  | func (id : Nat)
  | arr (elems : List JSVal)
  | obj (fields : List (String × JSVal))
  | date
  | map
  | set
  | promise
  | regexp

/-- The JS `typeof` operator on modelled values. -/
def typeofJS : JSVal → String
  | .num _ => "number"
  | .str _ => "string"
  | .bool _ => "boolean"
  | .bigint _ => "bigint"
  | .symbol _ => "symbol"
  | .undefined => "undefined"
  | .null => "object"
  | .func _ => "function"
  | .arr _ => "object"
  | .obj _ => "object"
  | .date => "object"
  | .map => "object"
  | .set => "object"
  | .promise => "object"
  | .regexp => "object"

/-- `value === null`. -/
def isNullJS : JSVal → Bool
  | .null => true
  | _ => false

/-- `Array.isArray(value)`. -/
def isArrayJS : JSVal → Bool
  | .arr _ => true
  | _ => false

/-- `getType` from `src/index.ts` (lines 49-52): `typeof value`. -/
def getType (value : JSVal) : String :=
  typeofJS value

/-- `getTypesOfItems` (lines 54-57): `arr.map((value) => getType(value))`. -/
def getTypesOfItems (arr : List JSVal) : List String :=
  arr.map (fun value => getType value)

/-- `allItemsHaveTheSameType` (lines 59-63):
`!typesArr.filter((type) => type !== typesArr[0]).length`.
For the empty list the filter callback never runs, so the default value
supplied for `typesArr[0]` is irrelevant. -/
def allItemsHaveTheSameType (arr : List JSVal) : Bool :=
  let typesArr := getTypesOfItems arr
  (typesArr.filter (fun t => t != typesArr.headD "")).length == 0

/-- `Number.isNaN(value)`. -/
def numberIsNaN : JSVal → Bool
  | .num .nan => true
  | _ => false

/-- `Number.isFinite(value)`: true exactly on finite numbers. -/
def numberIsFinite : JSVal → Bool
  | .num (.int _) => true
  | _ => false

/-- `getRealType` (lines 65-100); identical in `src/unnamed/part_000`
(lines 59-94).  The `instanceof` tests become constructor tests.  The
`typeof value === 'object'` branch has no final `else`, so a plain object
falls through to the trailing `return typeof value`. -/
def getRealType (value : JSVal) : String :=
  if typeofJS value == "number" then
    if numberIsNaN value then "NaN"
    else if !numberIsFinite value then "Infinity"
    else "number"
  else if typeofJS value == "object" then
    if isArrayJS value then "array"
    else if isNullJS value then "null"
    else
      match value with
      | .date => "date"
      | .map => "map"
      | .set => "set"
      | .promise => "promise"
      | .regexp => "regexp"
      | _ => typeofJS value
  else
    typeofJS value

/-- `getRealTypesOfItems` (lines 102-106). -/
def getRealTypesOfItems (arr : List JSVal) : List String :=
  arr.map (fun value => getRealType value)

/-- `everyItemHasAUniqueRealType` (lines 108-113):
`typesArr.length === new Set(typesArr).size`.  The size of a JS `Set`
built from a list is the number of distinct elements, which is the length
of the deduplicated list. -/
def everyItemHasAUniqueRealType (arr : List JSVal) : Bool :=
  let typesArr := getRealTypesOfItems arr
  typesArr.length == typesArr.dedup.length

/-- Result type shared by the two `countRealTypes` implementations:
`src/index.ts` returns `null` on empty input, `src/unnamed/part_000`
returns the number `0`, and both return an entry list otherwise. -/
inductive CountResult where
  | retNull
  | retNum (n : Nat)
  | retTable (entries : List (String × Nat))
  deriving DecidableEq

/-- One step of `types[type] = (types[type] ?? 0) + 1` on a plain JS
object represented as an association list in key-insertion order: an
existing key is updated in place, a new key is appended at the end. -/
def bumpCount : List (String × Nat) → String → List (String × Nat)
  | [], t => [(t, 1)]
  | (k, c) :: rest, t =>
    if k = t then (k, c + 1) :: rest else (k, c) :: bumpCount rest t

/-- The `typesArr.forEach((type) => { types[type] = (types[type] ?? 0) + 1 })`
accumulation loop shared verbatim by both implementations.  `Object.entries`
later lists the keys in insertion order, which `bumpCount` maintains; none
of the labels produced by `getRealType` is an integer-like string, so JS
does not reorder them. -/
def buildCounts (typesArr : List String) : List (String × Nat) :=
  typesArr.foldl bumpCount []

/-- `countRealTypes` from `src/index.ts` (lines 115-135): on empty input
returns `null`; otherwise returns `Object.entries` of the accumulated
counts, i.e. the entries in first-occurrence order of the labels (this
implementation does not sort them). -/
def countRealTypes (arr : List JSVal) : CountResult :=
  if arr.length == 0 then .retNull
  else .retTable (buildCounts (getRealTypesOfItems arr))

/-- Lexicographic strict comparison of character lists by code point —
executable form of the JS `<` operator on strings (JS compares UTF-16 code
units; every string this development compares is ASCII, where code units
and code points coincide). -/
def charListLt : List Char → List Char → Bool
  | _, [] => false
  | [], _ :: _ => true
  | c :: cs, d :: ds =>
    if c.toNat < d.toNat then true
    else if d.toNat < c.toNat then false
    else charListLt cs ds

/-- JS `s < t` on strings. -/
def strLt (s t : String) : Bool :=
  charListLt s.data t.data

/-- `String(count)` for a natural number: JS integer-to-string agrees with
`Nat` decimal printing. -/
def natToString (n : Nat) : String :=
  toString n

/-- The JS default string form of an entry pair `[label, count]` — used by
`entries.sort()` in `src/unnamed/part_000`: `ToString` of an array joins
the elements with a comma. -/
def pairKey (p : String × Nat) : String :=
  p.1 ++ "," ++ natToString p.2

/-- Stable insertion of one entry for the default `entries.sort()`: the
inserted entry passes exactly the entries whose string key is strictly
smaller, so entries with equal keys keep their original relative order. -/
def insertPair (p : String × Nat) : List (String × Nat) → List (String × Nat)
  | [] => [p]
  | q :: qs => if strLt (pairKey q) (pairKey p) then q :: insertPair p qs else p :: q :: qs

/-- `entries.sort()` from `src/unnamed/part_000` (line 122): the default
comparator stringifies each entry pair and compares the strings; the sort
is stable. -/
def sortPairsJS : List (String × Nat) → List (String × Nat)
  | [] => []
  | p :: ps => insertPair p (sortPairsJS ps)

namespace Part000

/-- `countRealTypes` from `src/unnamed/part_000` (lines 109-128): on empty
input returns the number `0`; otherwise accumulates the same counts as the
`src/index.ts` version and additionally sorts the entries with
`entries.sort()` before returning them. -/
def countRealTypes (arr : List JSVal) : CountResult :=
  if arr.length == 0 then .retNum 0
  else .retTable (sortPairsJS (buildCounts (getRealTypesOfItems arr)))

end Part000

mutual

/-- Size of a value: the fuel bound for the recursions below.  Every
proper subvalue has strictly smaller size. -/
def sizeVal : JSVal → Nat
  | .arr xs => sizeList xs + 1
  | .obj fs => sizeFields fs + 1
  | _ => 1

/-- Total size of a list of values. -/
def sizeList : List JSVal → Nat
  | [] => 0
  | v :: vs => sizeVal v + sizeList vs

/-- Total size of the values of a record. -/
def sizeFields : List (String × JSVal) → Nat
  | [] => 0
  | (_, v) :: fs => sizeVal v + sizeFields fs

end

/-- Join a list of strings with commas (`Array.prototype.join(',')`). -/
def commaJoin : List String → String
  | [] => ""
  | [s] => s
  | s :: rest => s ++ "," ++ commaJoin rest

/-- JS `String(value)`, fuelled so that the recursion through array
elements is structural.  `Array.prototype.toString` joins the elements
with commas, printing `null` and `undefined` elements as empty strings.
The string forms of symbols, functions, dates and regexps are abstract
placeholders: no claim of this development compares such values by their
string form (in full JS, `String` on a symbol even throws). -/
def jsToStringF : Nat → JSVal → String
  | _, .num .nan => "NaN"
  | _, .num .inf => "Infinity"
  | _, .num .negInf => "-Infinity"
  | _, .num (.int n) => toString n
  | _, .str s => s
  | _, .bool true => "true"
  | _, .bool false => "false"
  | _, .bigint n => toString n
  | _, .symbol _ => "Symbol()"
  | _, .undefined => "undefined"
  | _, .null => "null"
  | _, .func _ => "function"
  | _, .obj _ => "[object Object]"
  | _, .date => "[Date]"
  | _, .map => "[object Map]"
  | _, .set => "[object Set]"
  | _, .promise => "[object Promise]"
  | _, .regexp => "[RegExp]"
  | 0, .arr _ => ""
  | fuel + 1, .arr xs =>
    commaJoin (xs.map (fun v =>
      match v with
      | .undefined => ""
      | .null => ""
      | w => jsToStringF fuel w))

/-- JS `String(value)`. -/
def jsToString (v : JSVal) : String :=
  jsToStringF (sizeVal v) v

/-- The default `Array.prototype.sort` comparator as a strict "comes
before" test: `undefined` elements sort after everything else; all other
elements are compared by their `String` form, code unit by code unit. -/
def jsSortLT (x y : JSVal) : Bool :=
  match x, y with
  | .undefined, _ => false
  | _, .undefined => true
  | _, _ => strLt (jsToString x) (jsToString y)

/-- Stable insertion for the default sort: the inserted element passes
exactly the elements that compare strictly before it. -/
def jsInsert (x : JSVal) : List JSVal → List JSVal
  | [] => [x]
  | y :: ys => if jsSortLT y x then y :: jsInsert x ys else x :: y :: ys

/-- `[...a].sort()` with the default comparator (a stable sort). -/
def sortJS : List JSVal → List JSVal
  | [] => []
  | x :: xs => jsInsert x (sortJS xs)

/-- `sortedB[index]`: JS indexing yields `undefined` out of bounds. -/
def nthJS (l : List JSVal) (i : Nat) : JSVal :=
  l.getD i .undefined

/-- Object spread `{...a}` of an object-typed value, as an association
list in key order: spreading an array yields its index keys in order;
spreading a plain object yields its own fields; `Date`, `Map`, `Set`,
`Promise` and `RegExp` instances have no own enumerable property, so they
spread to the empty record. -/
def spreadJS : JSVal → List (String × JSVal)
  | .arr xs => xs.enum.map (fun p => (natToString p.1, p.2))
  | .obj fields => fields
  | _ => []

/-- Property read `fields[key]` on a record: the first binding of the key,
or `undefined` when the key is absent.  (An actual JS object never holds
two bindings of one key, so "first binding" is not a choice point.) -/
def getJS : List (String × JSVal) → String → JSVal
  | [], _ => .undefined
  | (k, v) :: rest, key => if k == key then v else getJS rest key

/-- Helper for `Object.keys`: first-occurrence order, each key once. -/
def keysAux (seen : List String) : List (String × JSVal) → List String
  | [] => []
  | (k, _) :: rest =>
    if k ∈ seen then keysAux seen rest else k :: keysAux (k :: seen) rest

/-- `Object.keys` of a record given as an association list. -/
def keysJS (fields : List (String × JSVal)) : List String :=
  keysAux [] fields

/-- JS strict equality `a === b` on the modelled values, restricted to the
cases `areEqual` can reach it in (at least one side primitive, `null`, or
a function): equal primitives of the same type are `===`, `NaN` is `===`
to nothing, values of different `typeof` are never `===`, and function or
symbol values are compared by identity.  Two composite values never reach
this comparison inside `areEqual` (its object guard captures them), so
their case conservatively models distinct references. -/
def strictEq : JSVal → JSVal → Bool
  | .num .nan, _ => false
  | _, .num .nan => false
  | .num .inf, .num .inf => true
  | .num .negInf, .num .negInf => true
  | .num (.int m), .num (.int n) => m == n
  | .str s, .str t => s == t
  | .bool x, .bool y => x == y
  | .bigint m, .bigint n => m == n
  | .symbol i, .symbol j => i == j
  | .undefined, .undefined => true
  | .null, .null => true
  | .func i, .func j => i == j
  | _, _ => false

/-- The element list of an array value (only consulted under an
`Array.isArray` test). -/
def elemsJS : JSVal → List JSVal
  | .arr xs => xs
  | _ => []

/-- `areEqual` from `src/index.ts` (lines 7-32), fuelled so that the
recursion is structural; `areEqual` below supplies sufficient fuel.  The
guard is the source's
`typeof a === 'object' && typeof b === 'object' && a !== null && b !== null`.
When `Array.isArray(a) && Array.isArray(b)`, each side is copied and
sorted with the default comparator and
`sortedA.every((value, index) => areEqual(value, sortedB[index]))`
runs — note it walks the positions of `sortedA` only.  Otherwise both
sides are spread into fresh records and
`Object.keys(newA).every((value) => areEqual(newA[value], newB[value]))`
runs — note it walks `newA`'s keys only. -/
def areEqualF : Nat → JSVal → JSVal → Bool
  | 0, _, _ => false
  | fuel + 1, a, b =>
    if typeofJS a == "object" && typeofJS b == "object" &&
        !isNullJS a && !isNullJS b then
      if isArrayJS a && isArrayJS b then
        let sortedA := sortJS (elemsJS a)
        let sortedB := sortJS (elemsJS b)
        sortedA.enum.all fun p => areEqualF fuel p.2 (nthJS sortedB p.1)
      else
        let newA := spreadJS a
        let newB := spreadJS b
        (keysJS newA).all fun key => areEqualF fuel (getJS newA key) (getJS newB key)
    else
      strictEq a b

/-- `areEqual` from `src/index.ts`: `sizeVal a` bounds the recursion
depth, which only ever descends into subterms of the first argument. -/
def areEqual (a b : JSVal) : Bool :=
  areEqualF (sizeVal a) a b

/-- Whether an entry list is sorted ascending by label (lexicographic
string ordering) — the property the spec and the source comments claim of
the returned table. -/
def labelsSorted : List (String × Nat) → Bool
  | [] => true
  | [_] => true
  | p :: q :: rest => (strLt p.1 q.1 || p.1 == q.1) && labelsSorted (q :: rest)

/-- Specification-side lookup in a count table: the count stored under a
label, `0` when the label is absent.  Used to state facts about
`buildCounts`. -/
def lookupCount : List (String × Nat) → String → Nat
  | [], _ => 0
  | (k, c) :: rest, t => if k = t then c else lookupCount rest t

example : getRealType (.num .nan) = "NaN" := by decide
example : getRealType (.num (.int 42)) = "number" := by decide
example : getRealType (.arr []) = "array" := by decide
example : getRealType (.obj []) = "object" := by decide
example : getRealType .null = "null" := by decide
example : everyItemHasAUniqueRealType [.bool true, .num (.int 123), .str "123"] = true := by decide
example : everyItemHasAUniqueRealType [.bool true, .num (.int 123), .bool false] = false := by decide
example : allItemsHaveTheSameType [.num (.int 11), .num (.int 12), .num (.int 13)] = true := by
  decide

-- [true, null, !null, !!null, {}]  (test at src/index.ts line 253)
example :
    countRealTypes [.bool true, .null, .bool true, .bool false, .obj []] =
      .retTable [("boolean", 3), ("null", 1), ("object", 1)] := by decide

-- [{}, null, true, !null, !!null]  (test at src/index.ts line 259): the
-- index.ts version emits entries in first-occurrence order, NOT sorted.
example :
    countRealTypes [.obj [], .null, .bool true, .bool true, .bool false] =
      .retTable [("object", 1), ("null", 1), ("boolean", 3)] := by decide

example :
    Part000.countRealTypes [.obj [], .null, .bool true, .bool true, .bool false] =
      .retTable [("boolean", 3), ("null", 1), ("object", 1)] := by decide

example : countRealTypes [] = .retNull := by decide
example : Part000.countRealTypes [] = .retNum 0 := by decide
example : labelsSorted [("object", 1), ("null", 1), ("boolean", 3)] = false := by decide

-- areEqual on concrete values
example :
    areEqual (.arr [.num (.int 1), .num (.int 2), .num (.int 3)])
      (.arr [.num (.int 3), .num (.int 2), .num (.int 1)]) = true := by decide
example :
    areEqual (.arr [.num (.int 1), .num (.int 2)])
      (.arr [.num (.int 1), .num (.int 2), .num (.int 3)]) = true := by decide
example :
    areEqual (.arr [.num (.int 1), .num (.int 2), .num (.int 3)])
      (.arr [.num (.int 1), .num (.int 2)]) = false := by decide
example : areEqual (.arr []) (.obj []) = true := by decide
example : areEqual (.obj []) (.obj [("x", .num (.int 1))]) = true := by decide
example : areEqual (.obj [("x", .num (.int 1))]) (.obj []) = false := by decide
example : areEqual (.obj []) .date = true := by decide
example : areEqual (.num (.int 1)) (.num (.int 1)) = true := by decide
example : areEqual (.num .nan) (.num .nan) = false := by decide
example : areEqual .null .null = true := by decide
example : areEqual (.arr []) .null = false := by decide

/-! ### Basic facts about the embedding -/

theorem sizeVal_pos (v : JSVal) : 0 < sizeVal v := by
  cases v <;> simp [sizeVal]

/-! ### Claim C1 -/

/-- C1: the claim states that `areEqual([1,2], [1,2,3])` is `false`.  It
is not: `sortedA.every((value, index) => ...)` walks only the positions
of the sorted copy of the first argument, and each of `1`, `2` matches
the element at the same position of the sorted second array, so the call
returns `true`. -/
theorem c1_counterexample :
    areEqual (.arr [.num (.int 1), .num (.int 2)])
      (.arr [.num (.int 1), .num (.int 2), .num (.int 3)]) = true := by decide

/-- C1 (amended): comparing the longer array `[1,2,3]` against its strict
prefix `[1,2]` returns `false` (position 2 of the sorted first argument is
compared against `undefined`), while the prefix-first direction
`areEqual([1,2], [1,2,3])` returns `true`, because only the first
argument's sorted positions are checked. -/
theorem c1_amended :
    areEqual (.arr [.num (.int 1), .num (.int 2), .num (.int 3)])
      (.arr [.num (.int 1), .num (.int 2)]) = false ∧
    areEqual (.arr [.num (.int 1), .num (.int 2)])
      (.arr [.num (.int 1), .num (.int 2), .num (.int 3)]) = true := by decide

/-! ### Claim C2 -/

/-- C2: on the repository's own test input `[{}, null, true, !null, !!null]`
(`src/index.ts` line 259, named "Counted unique types are sorted"),
`countRealTypes` from `src/index.ts` returns the entries in
first-occurrence order `object, null, boolean`, which is not sorted
ascending by label — the code omits the sort its own comment (lines
132-133, "sorted by type") promises.  The second implementation in
`src/unnamed/part_000` does sort. -/
theorem c2_code_evaluation :
    countRealTypes [.obj [], .null, .bool true, .bool true, .bool false] =
      .retTable [("object", 1), ("null", 1), ("boolean", 3)] ∧
    labelsSorted [("object", 1), ("null", 1), ("boolean", 3)] = false ∧
    Part000.countRealTypes [.obj [], .null, .bool true, .bool true, .bool false] =
      .retTable [("boolean", 3), ("null", 1), ("object", 1)] := by decide

/-! ### Claim C8 -/

/-- C8: on the empty sequence both collection predicates are vacuously
true: the filter in `allItemsHaveTheSameType` keeps nothing, and `0` items
have `0` distinct real types. -/
theorem c8_empty_predicates :
    allItemsHaveTheSameType [] = true ∧ everyItemHasAUniqueRealType [] = true :=
  ⟨rfl, rfl⟩

/-! ### Claim C5 -/

/-- C5: for every value whose native type tag is numeric, `getRealType`
returns `'NaN'` exactly on the not-a-number sentinel, `'Infinity'` exactly
on the two unbounded values, and `'number'` otherwise. -/
theorem c5_numeric_labels (v : JSVal) (h : typeofJS v = "number") :
    (getRealType v = "NaN" ↔ v = .num .nan) ∧
    (getRealType v = "Infinity" ↔ (v = .num .inf ∨ v = .num .negInf)) ∧
    (v ≠ .num .nan → v ≠ .num .inf → v ≠ .num .negInf → getRealType v = "number") := by
  cases v with
  | num x =>
    cases x <;>
      simp_all [getRealType, typeofJS, numberIsNaN, numberIsFinite]
  | _ => simp_all [typeofJS]

/-- Witness for C5 at the finite number `5`. -/
theorem c5_witness :
    typeofJS (.num (.int 5)) = "number" ∧ getRealType (.num (.int 5)) = "number" :=
  ⟨rfl, (c5_numeric_labels (.num (.int 5)) rfl).2.2 (by simp) (by simp) (by simp)⟩

/-! ### Claim C6 -/

/-- C6: the classifier's rules are a priority list — every array value is
labelled `'array'` by the earlier array rule and never reaches the later
plain-`'object'` fallthrough. -/
theorem c6_array_priority (v : JSVal) (h : isArrayJS v = true) :
    getRealType v = "array" ∧ getRealType v ≠ "object" := by
  cases v <;> simp_all [isArrayJS, getRealType, typeofJS, isNullJS]

/-- Witness for C6 at the empty array. -/
theorem c6_witness :
    isArrayJS (.arr []) = true ∧ getRealType (.arr []) = "array" :=
  ⟨rfl, (c6_array_priority (.arr []) rfl).1⟩

/-! ### Claim C3 -/

/-- C3: on the empty sequence, `countRealTypes` of `src/index.ts` returns
`null` and the copy in `src/unnamed/part_000` returns `0`; both markers
are distinct from every table (in particular from the empty table), and
both implementations return a table exactly on non-empty input. -/
theorem c3_empty_marker :
    countRealTypes [] = .retNull ∧
    Part000.countRealTypes [] = .retNum 0 ∧
    (∀ es : List (String × Nat), CountResult.retNull ≠ .retTable es) ∧
    (∀ es : List (String × Nat), CountResult.retNum 0 ≠ .retTable es) ∧
    (∀ arr : List JSVal, arr ≠ [] →
      (∃ es, countRealTypes arr = .retTable es) ∧
      (∃ es, Part000.countRealTypes arr = .retTable es)) := by
  refine ⟨rfl, rfl, ?_, ?_, ?_⟩
  · intro es h
    exact CountResult.noConfusion h
  · intro es h
    exact CountResult.noConfusion h
  · intro arr h
    match arr, h with
    | x :: t, _ =>
      exact ⟨⟨buildCounts (getRealTypesOfItems (x :: t)), rfl⟩,
        ⟨sortPairsJS (buildCounts (getRealTypesOfItems (x :: t))), rfl⟩⟩

/-- Witness for C3 at the one-element list `[null]`. -/
theorem c3_witness :
    ([JSVal.null] ≠ ([] : List JSVal)) ∧
    (∃ es, countRealTypes [JSVal.null] = .retTable es) ∧
    (∃ es, Part000.countRealTypes [JSVal.null] = .retTable es) :=
  ⟨by simp, (c3_empty_marker.2.2.2.2 [JSVal.null] (by simp)).1,
    (c3_empty_marker.2.2.2.2 [JSVal.null] (by simp)).2⟩

/-! ### Claim C9 -/

theorem insertPair_perm (p : String × Nat) (l : List (String × Nat)) :
    (insertPair p l).Perm (p :: l) := by
  induction l with
  | nil => exact List.Perm.refl _
  | cons q qs ih =>
    by_cases h : strLt (pairKey q) (pairKey p) = true
    · rw [show insertPair p (q :: qs) = q :: insertPair p qs from by simp [insertPair, h]]
      exact (ih.cons q).trans (List.Perm.swap p q qs)
    · rw [show insertPair p (q :: qs) = p :: q :: qs from by simp [insertPair, h]]

theorem sortPairsJS_perm (l : List (String × Nat)) : (sortPairsJS l).Perm l := by
  induction l with
  | nil => exact List.Perm.refl _
  | cons p ps ih => exact (insertPair_perm p (sortPairsJS ps)).trans (ih.cons p)

/-- C9: the claim states the two `countRealTypes` implementations are
extensionally equal.  They are not: on `[null, true]` the `src/index.ts`
version returns the entries in first-occurrence order
`[['null',1],['boolean',1]]` while the `src/unnamed/part_000` version
sorts them to `[['boolean',1],['null',1]]`; they also disagree on the
empty input (`null` versus `0`). -/
theorem c9_counterexample :
    countRealTypes [.null, .bool true] ≠ Part000.countRealTypes [.null, .bool true] := by
  decide

/-- C9 (amended): the two implementations agree up to entry order — on
every non-empty input, `part_000`'s table is exactly the JS-default sort
of `index.ts`'s table and hence a permutation of it — but on the empty
input `index.ts` returns `null` while `part_000` returns the number `0`. -/
theorem c9_amended :
    (countRealTypes [] = .retNull ∧ Part000.countRealTypes [] = .retNum 0) ∧
    (∀ arr : List JSVal, arr ≠ [] →
      ∃ es, countRealTypes arr = .retTable es ∧
        Part000.countRealTypes arr = .retTable (sortPairsJS es) ∧
        (sortPairsJS es).Perm es) := by
  refine ⟨⟨rfl, rfl⟩, ?_⟩
  intro arr h
  match arr, h with
  | x :: t, _ =>
    exact ⟨buildCounts (getRealTypesOfItems (x :: t)), rfl, rfl, sortPairsJS_perm _⟩

/-- Witness for C9 (amended) at the input `[null, true]`. -/
theorem c9_witness :
    ([JSVal.null, JSVal.bool true] ≠ ([] : List JSVal)) ∧
    ∃ es, countRealTypes [JSVal.null, JSVal.bool true] = .retTable es ∧
      Part000.countRealTypes [JSVal.null, JSVal.bool true] = .retTable (sortPairsJS es) ∧
      (sortPairsJS es).Perm es :=
  ⟨by simp, c9_amended.2 [JSVal.null, JSVal.bool true] (by simp)⟩

/-! ### Claim C10 -/

theorem strictEq_undefined_false (v : JSVal) (h : v ≠ .undefined) :
    strictEq v .undefined = false := by
  cases v <;>
    first
      | rfl
      | exact absurd rfl h
      | (rename_i x; cases x <;> rfl)

theorem areEqualF_undefined_false (fuel : Nat) (v : JSVal) (h : v ≠ .undefined) :
    areEqualF fuel v .undefined = false := by
  cases fuel with
  | zero => rfl
  | succ n =>
    have h2 : (typeofJS JSVal.undefined == "object") = false := rfl
    have hguard : (typeofJS v == "object" && typeofJS JSVal.undefined == "object" &&
        !isNullJS v && !isNullJS JSVal.undefined) = false := by
      rw [h2]; simp
    simp only [areEqualF, hguard, Bool.false_eq_true, if_false]
    exact strictEq_undefined_false v h

theorem mem_map_fst_of_getJS_ne (fs : List (String × JSVal)) (k : String)
    (h : getJS fs k ≠ .undefined) : k ∈ fs.map Prod.fst := by
  induction fs with
  | nil => exact absurd rfl h
  | cons kv rest ih =>
    obtain ⟨k', v⟩ := kv
    by_cases hk : (k' == k) = true
    · have : k' = k := by simpa using hk
      simp [this]
    · rw [show getJS ((k', v) :: rest) k = getJS rest k from by simp [getJS, hk]] at h
      simpa using Or.inr (ih h)

theorem mem_keysAux {k : String} : ∀ (fs : List (String × JSVal)) (seen : List String),
    k ∈ fs.map Prod.fst → k ∉ seen → k ∈ keysAux seen fs := by
  intro fs
  induction fs with
  | nil => intro seen hmem _; simp at hmem
  | cons kv rest ih =>
    intro seen hmem hseen
    obtain ⟨k', v⟩ := kv
    have hmem' : k = k' ∨ k ∈ rest.map Prod.fst := by simpa using hmem
    by_cases hk : k' ∈ seen
    · rw [show keysAux seen ((k', v) :: rest) = keysAux seen rest from by simp [keysAux, hk]]
      rcases hmem' with h | h
      · exact absurd (h ▸ hk) hseen
      · exact ih seen h hseen
    · rw [show keysAux seen ((k', v) :: rest) = k' :: keysAux (k' :: seen) rest from by
        simp [keysAux, hk]]
      rcases hmem' with h | h
      · exact h ▸ List.mem_cons_self k' _
      · by_cases hkk : k = k'
        · exact hkk ▸ List.mem_cons_self k' _
        · exact List.mem_cons_of_mem k'
            (ih (k' :: seen) h (fun hc => (List.mem_cons.mp hc).elim hkk hseen))

/-- C10: `areEqual` is directional on plain records: the empty record
compares equal to every non-null non-array object (only the first
argument's keys are inspected, and it has none), while any record with a
key bound to a non-`undefined` value compares unequal to the empty
record. -/
theorem c10_directional_record_compare :
    (∀ b : JSVal, typeofJS b = "object" → b ≠ .null → isArrayJS b = false →
      areEqual (.obj []) b = true) ∧
    (∀ (fs : List (String × JSVal)) (k : String), getJS fs k ≠ .undefined →
      areEqual (.obj fs) (.obj []) = false) := by
  constructor
  · intro b hb hnull harr
    cases b with
    | null => exact absurd rfl hnull
    | arr xs => exact absurd harr (of_decide_eq_false rfl)
    | obj gs => rfl
    | date => rfl
    | map => rfl
    | set => rfl
    | promise => rfl
    | regexp => rfl
    | num x => exact absurd hb (of_decide_eq_false rfl)
    | str s => exact absurd hb (of_decide_eq_false rfl)
    | bool y => exact absurd hb (of_decide_eq_false rfl)
    | bigint n => exact absurd hb (of_decide_eq_false rfl)
    | symbol i => exact absurd hb (of_decide_eq_false rfl)
    | undefined => exact absurd hb (of_decide_eq_false rfl)
    | func i => exact absurd hb (of_decide_eq_false rfl)
  · intro fs k hk
    have hkmem : k ∈ keysJS fs :=
      mem_keysAux fs [] (mem_map_fst_of_getJS_ne fs k hk) (by simp)
    show areEqualF (sizeVal (.obj fs)) (.obj fs) (.obj []) = false
    rw [show sizeVal (.obj fs) = sizeFields fs + 1 from rfl]
    rw [show areEqualF (sizeFields fs + 1) (.obj fs) (.obj []) =
        (keysJS fs).all (fun key => areEqualF (sizeFields fs) (getJS fs key) (getJS [] key))
      from rfl]
    refine Bool.eq_false_iff.mpr ?_
    intro hall
    rw [List.all_eq_true] at hall
    have hbody : areEqualF (sizeFields fs) (getJS fs k) (getJS [] k) = true := hall k hkmem
    rw [show getJS ([] : List (String × JSVal)) k = .undefined from rfl] at hbody
    rw [areEqualF_undefined_false (sizeFields fs) (getJS fs k) hk] at hbody
    exact Bool.false_ne_true hbody

/-- Witness for C10 at `b = { x: 1 }`. -/
theorem c10_witness :
    (typeofJS (.obj [("x", JSVal.num (.int 1))]) = "object" ∧
      JSVal.obj [("x", JSVal.num (.int 1))] ≠ .null ∧
      isArrayJS (.obj [("x", JSVal.num (.int 1))]) = false ∧
      areEqual (.obj []) (.obj [("x", JSVal.num (.int 1))]) = true) ∧
    (getJS [("x", JSVal.num (.int 1))] "x" ≠ .undefined ∧
      areEqual (.obj [("x", JSVal.num (.int 1))]) (.obj []) = false) := by
  constructor
  · exact ⟨rfl, fun h => JSVal.noConfusion h, rfl,
      c10_directional_record_compare.1 _ rfl (fun h => JSVal.noConfusion h) rfl⟩
  · refine ⟨?_, ?_⟩
    · show JSVal.num (.int 1) ≠ .undefined
      exact fun h => JSVal.noConfusion h
    · exact c10_directional_record_compare.2 [("x", JSVal.num (.int 1))] "x"
        (fun h => JSVal.noConfusion (show JSVal.num (.int 1) = .undefined from h))

/-! ### Claim C7 -/

theorem lookupCount_bumpCount (m : List (String × Nat)) (t s : String) :
    lookupCount (bumpCount m t) s =
      if t = s then lookupCount m s + 1 else lookupCount m s := by
  induction m with
  | nil => by_cases h : t = s <;> simp [bumpCount, lookupCount, h]
  | cons kc rest ih =>
    obtain ⟨k, c⟩ := kc
    by_cases hkt : k = t
    · subst hkt
      by_cases hks : k = s <;> simp [bumpCount, lookupCount, hks]
    · by_cases hks : k = s
      · have hts : ¬(t = s) := fun h => hkt (hks.trans h.symm)
        have hst : ¬(s = t) := fun h => hts h.symm
        simp [bumpCount, hkt, lookupCount, hks, hts, hst]
      · simp [bumpCount, hkt, lookupCount, hks, ih]

theorem map_fst_bumpCount (m : List (String × Nat)) (t : String) :
    (bumpCount m t).map Prod.fst =
      if t ∈ m.map Prod.fst then m.map Prod.fst else m.map Prod.fst ++ [t] := by
  induction m with
  | nil => simp [bumpCount]
  | cons kc rest ih =>
    obtain ⟨k, c⟩ := kc
    by_cases h : k = t
    · subst h; simp [bumpCount]
    · have h' : ¬(t = k) := fun hc => h hc.symm
      by_cases h2 : t ∈ rest.map Prod.fst <;>
        simp [bumpCount, h, h', h2, ih]

theorem nodup_keys_bumpCount {m : List (String × Nat)} (t : String)
    (h : (m.map Prod.fst).Nodup) : ((bumpCount m t).map Prod.fst).Nodup := by
  rw [map_fst_bumpCount]
  by_cases h2 : t ∈ m.map Prod.fst
  · simpa [h2] using h
  · simp [h2, List.nodup_append, h]

theorem lookupCount_foldl (l : List String) :
    ∀ (m : List (String × Nat)) (s : String),
      lookupCount (l.foldl bumpCount m) s = lookupCount m s + l.count s := by
  induction l with
  | nil => intro m s; simp
  | cons x l ih =>
    intro m s
    rw [List.foldl_cons, ih, lookupCount_bumpCount, List.count_cons]
    by_cases h : x = s
    · simp [h, beq_iff_eq]
      omega
    · have h' : ¬(s = x) := fun hc => h hc.symm
      simp [h, h']

theorem mem_keys_foldl (l : List String) :
    ∀ (m : List (String × Nat)) (s : String),
      (s ∈ (l.foldl bumpCount m).map Prod.fst ↔ s ∈ m.map Prod.fst ∨ s ∈ l) := by
  induction l with
  | nil => intro m s; simp
  | cons x l ih =>
    intro m s
    rw [List.foldl_cons, ih, map_fst_bumpCount]
    by_cases h2 : x ∈ m.map Prod.fst
    · rw [if_pos h2]
      constructor
      · intro h
        rcases h with h | h
        · exact Or.inl h
        · exact Or.inr (List.mem_cons_of_mem x h)
      · intro h
        rcases h with h | h
        · exact Or.inl h
        · rcases List.mem_cons.mp h with h | h
          · exact Or.inl (h ▸ h2)
          · exact Or.inr h
    · rw [if_neg h2]
      simp [List.mem_append, List.mem_cons, or_assoc]

theorem nodup_keys_foldl (l : List String) :
    ∀ (m : List (String × Nat)), (m.map Prod.fst).Nodup →
      ((l.foldl bumpCount m).map Prod.fst).Nodup := by
  induction l with
  | nil => intro m h; simpa using h
  | cons x l ih =>
    intro m h
    rw [List.foldl_cons]
    exact ih (bumpCount m x) (nodup_keys_bumpCount x h)

theorem lookupCount_of_mem : ∀ {m : List (String × Nat)}, (m.map Prod.fst).Nodup →
    ∀ {p : String × Nat}, p ∈ m → lookupCount m p.1 = p.2 := by
  intro m
  induction m with
  | nil => intro _ p hp; simp at hp
  | cons kc rest ih =>
    intro hnd p hp
    obtain ⟨k, c⟩ := kc
    have hnd' : k ∉ rest.map Prod.fst ∧ (rest.map Prod.fst).Nodup := by
      simpa using hnd
    rcases List.mem_cons.mp hp with rfl | hp'
    · simp [lookupCount]
    · have hk : ¬(k = p.1) := by
        intro h
        exact hnd'.1 (h ▸ List.mem_map_of_mem Prod.fst hp')
      simp only [lookupCount, hk, if_false]
      exact ih hnd'.2 hp'

theorem mem_of_mem_keys : ∀ (m : List (String × Nat)) (t : String),
    t ∈ m.map Prod.fst → (t, lookupCount m t) ∈ m := by
  intro m
  induction m with
  | nil => simp
  | cons kc rest ih =>
    intro t ht
    obtain ⟨k, c⟩ := kc
    by_cases h : k = t
    · subst h; simp [lookupCount]
    · have ht' : t ∈ rest.map Prod.fst := by
        rcases (by simpa using ht : t = k ∨ t ∈ rest.map Prod.fst) with h1 | h1
        · exact absurd h1.symm h
        · exact h1
      simp only [lookupCount, h, if_false]
      exact List.mem_cons_of_mem _ (ih t ht')

/-- Characterization of the accumulated count table: its entries are
exactly the labels of the input, each paired with its number of
occurrences. -/
theorem mem_buildCounts (l : List String) (p : String × Nat) :
    p ∈ buildCounts l ↔ p.1 ∈ l ∧ p.2 = l.count p.1 := by
  have hnd : ((buildCounts l).map Prod.fst).Nodup :=
    nodup_keys_foldl l [] (by simp)
  have hkeys : ∀ s, s ∈ (buildCounts l).map Prod.fst ↔ s ∈ l := by
    intro s
    rw [buildCounts, mem_keys_foldl]
    simp
  have hlook : ∀ s, lookupCount (buildCounts l) s = l.count s := by
    intro s
    rw [buildCounts, lookupCount_foldl]
    simp [lookupCount]
  constructor
  · intro hp
    refine ⟨(hkeys p.1).mp (List.mem_map_of_mem Prod.fst hp), ?_⟩
    rw [← hlook p.1, lookupCount_of_mem hnd hp]
  · rintro ⟨h1, h2⟩
    have h3 := mem_of_mem_keys (buildCounts l) p.1 ((hkeys p.1).mpr h1)
    rw [hlook] at h3
    obtain ⟨p1, p2⟩ := p
    simp only at h2
    rw [h2]
    exact h3

theorem beq_length_dedup_iff (l : List String) :
    (l.length == l.dedup.length) = true ↔ l.Nodup := by
  rw [beq_iff_eq]
  constructor
  · intro h
    have : l.dedup = l := (List.dedup_sublist l).eq_of_length h.symm
    rw [← this]
    exact List.nodup_dedup l
  · intro h
    rw [List.dedup_eq_self.mpr h]

/-- C7: round-trip between the uniqueness check and the frequency
counter — `everyItemHasAUniqueRealType` holds exactly when every row of
the table `countRealTypes` produces carries count 1 (vacuously so on the
empty input, where no table is produced). -/
theorem c7_roundtrip (arr : List JSVal) :
    everyItemHasAUniqueRealType arr = true ↔
      (∀ es, countRealTypes arr = .retTable es → ∀ p ∈ es, p.2 = 1) := by
  cases arr with
  | nil =>
    constructor
    · intro _ es h
      exact CountResult.noConfusion h
    · intro _
      rfl
  | cons x t =>
    have heq : countRealTypes (x :: t) =
        .retTable (buildCounts (getRealTypesOfItems (x :: t))) := rfl
    constructor
    · intro h es hes p hp
      rw [heq] at hes
      injection hes with hes
      subst hes
      have hc := (mem_buildCounts (getRealTypesOfItems (x :: t)) p).mp hp
      have hnd : (getRealTypesOfItems (x :: t)).Nodup :=
        (beq_length_dedup_iff (getRealTypesOfItems (x :: t))).mp h
      rw [hc.2]
      exact List.count_eq_one_of_mem hnd hc.1
    · intro h
      apply (beq_length_dedup_iff (getRealTypesOfItems (x :: t))).mpr
      rw [List.nodup_iff_count_eq_one]
      intro a ha
      exact h _ heq (a, (getRealTypesOfItems (x :: t)).count a)
        ((mem_buildCounts _ _).mpr ⟨ha, rfl⟩)

/-- Witness for C7: both sides of the round-trip at the concrete input
`[null, true]`, whose two real types are distinct. -/
theorem c7_witness :
    everyItemHasAUniqueRealType [JSVal.null, JSVal.bool true] = true :=
  (c7_roundtrip [JSVal.null, JSVal.bool true]).mpr (fun es hes => by
    rw [show countRealTypes [JSVal.null, JSVal.bool true] =
        CountResult.retTable [("null", 1), ("boolean", 1)] from by decide] at hes
    injection hes with h
    subst h
    decide)

/-! ### Claim C4 -/

theorem isArrayJS_eq (a : JSVal) (h : isArrayJS a = true) : ∃ xs, a = .arr xs := by
  cases a <;>
    first
      | exact ⟨_, rfl⟩
      | exact absurd h (of_decide_eq_false rfl)

theorem listAllCongr {α : Type} {l : List α} {f g : α → Bool}
    (h : ∀ x ∈ l, f x = g x) : l.all f = l.all g := by
  induction l with
  | nil => rfl
  | cons x xs ih =>
    simp only [List.all_cons]
    rw [h x (List.mem_cons_self x xs), ih (fun y hy => h y (List.mem_cons_of_mem x hy))]

theorem snd_mem_of_mem_enum {α : Type} {p : Nat × α} {l : List α} (h : p ∈ l.enum) :
    p.2 ∈ l := by
  rw [List.mem_enum_iff_getElem?] at h
  exact List.getElem?_mem h

theorem mem_jsInsert {v x : JSVal} : ∀ {l : List JSVal}, v ∈ jsInsert x l → v = x ∨ v ∈ l := by
  intro l
  induction l with
  | nil => intro h; exact Or.inl (List.mem_singleton.mp h)
  | cons y ys ih =>
    intro h
    by_cases hc : jsSortLT y x = true
    · rw [show jsInsert x (y :: ys) = y :: jsInsert x ys from by simp [jsInsert, hc]] at h
      rcases List.mem_cons.mp h with h | h
      · exact Or.inr (h ▸ List.mem_cons_self y ys)
      · rcases ih h with h | h
        · exact Or.inl h
        · exact Or.inr (List.mem_cons_of_mem y h)
    · rw [show jsInsert x (y :: ys) = x :: y :: ys from by simp [jsInsert, hc]] at h
      rcases List.mem_cons.mp h with h | h
      · exact Or.inl h
      · exact Or.inr h

theorem mem_sortJS {v : JSVal} : ∀ {l : List JSVal}, v ∈ sortJS l → v ∈ l := by
  intro l
  induction l with
  | nil => intro h; exact absurd h (List.not_mem_nil v)
  | cons x xs ih =>
    intro h
    rcases mem_jsInsert h with h | h
    · exact h ▸ List.mem_cons_self x xs
    · exact List.mem_cons_of_mem x (ih h)

theorem sizeVal_le_sizeList {v : JSVal} : ∀ {xs : List JSVal}, v ∈ xs →
    sizeVal v ≤ sizeList xs := by
  intro xs
  induction xs with
  | nil => intro h; simp at h
  | cons y ys ih =>
    intro h
    rw [show sizeList (y :: ys) = sizeVal y + sizeList ys from rfl]
    rcases List.mem_cons.mp h with h | h
    · rw [h]
      omega
    · have := ih h
      omega

theorem sizeVal_le_sizeFields {v : JSVal} {k : String} :
    ∀ {fs : List (String × JSVal)}, (k, v) ∈ fs → sizeVal v ≤ sizeFields fs := by
  intro fs
  induction fs with
  | nil => intro h; simp at h
  | cons kv rest ih =>
    intro h
    obtain ⟨k', v'⟩ := kv
    rw [show sizeFields ((k', v') :: rest) = sizeVal v' + sizeFields rest from rfl]
    rcases List.mem_cons.mp h with h | h
    · rw [show v = v' from congrArg Prod.snd h]
      omega
    · have := ih h
      omega

theorem getJS_undefined_or_mem (fs : List (String × JSVal)) (k : String) :
    getJS fs k = .undefined ∨ (k, getJS fs k) ∈ fs := by
  induction fs with
  | nil => exact Or.inl rfl
  | cons kv rest ih =>
    obtain ⟨k', v⟩ := kv
    by_cases h : (k' == k) = true
    · have hk : k' = k := by simpa using h
      subst hk
      right
      rw [show getJS ((k', v) :: rest) k' = v from by simp [getJS]]
      exact List.mem_cons_self _ _
    · rw [show getJS ((k', v) :: rest) k = getJS rest k from by simp [getJS, h]]
      rcases ih with h1 | h1
      · exact Or.inl h1
      · exact Or.inr (List.mem_cons_of_mem _ h1)

theorem sizeVal_getJS_spread_lt (a : JSVal) (k : String) (hne : spreadJS a ≠ []) :
    sizeVal (getJS (spreadJS a) k) < sizeVal a := by
  have hd := getJS_undefined_or_mem (spreadJS a) k
  cases a with
  | arr xs =>
    rw [show sizeVal (JSVal.arr xs) = sizeList xs + 1 from rfl]
    rcases hd with h | h
    · rw [h]
      have hxs : xs ≠ [] := by
        intro hnil
        subst hnil
        exact hne rfl
      match xs, hxs with
      | y :: ys, _ =>
        have := sizeVal_pos y
        rw [show sizeList (y :: ys) = sizeVal y + sizeList ys from rfl,
          show sizeVal JSVal.undefined = 1 from rfl]
        omega
    · have h' : (k, getJS (spreadJS (JSVal.arr xs)) k) ∈
          xs.enum.map (fun p => (natToString p.1, p.2)) := h
      rcases List.mem_map.mp h' with ⟨p, hp, hpe⟩
      have hmem : p.2 ∈ xs := snd_mem_of_mem_enum hp
      have hv : p.2 = getJS (spreadJS (JSVal.arr xs)) k := congrArg Prod.snd hpe
      rw [hv] at hmem
      have := sizeVal_le_sizeList hmem
      omega
  | obj fs =>
    rw [show sizeVal (JSVal.obj fs) = sizeFields fs + 1 from rfl]
    rcases hd with h | h
    · rw [h]
      have hfs : fs ≠ [] := hne
      match fs, hfs with
      | (k', v') :: rest, _ =>
        have := sizeVal_pos v'
        rw [show sizeFields ((k', v') :: rest) = sizeVal v' + sizeFields rest from rfl,
          show sizeVal JSVal.undefined = 1 from rfl]
        omega
    · have h' : (k, getJS (spreadJS (JSVal.obj fs)) k) ∈ fs := h
      have := sizeVal_le_sizeFields h'
      omega
  | num x => exact absurd rfl hne
  | str s => exact absurd rfl hne
  | bool y => exact absurd rfl hne
  | bigint n => exact absurd rfl hne
  | symbol i => exact absurd rfl hne
  | undefined => exact absurd rfl hne
  | null => exact absurd rfl hne
  | func i => exact absurd rfl hne
  | date => exact absurd rfl hne
  | map => exact absurd rfl hne
  | set => exact absurd rfl hne
  | promise => exact absurd rfl hne
  | regexp => exact absurd rfl hne

/-- One-step unfolding of `areEqualF` at positive fuel. -/
theorem areEqualF_succ (fuel : Nat) (a b : JSVal) :
    areEqualF (fuel + 1) a b =
      if typeofJS a == "object" && typeofJS b == "object" &&
          !isNullJS a && !isNullJS b then
        if isArrayJS a && isArrayJS b then
          (sortJS (elemsJS a)).enum.all fun p =>
            areEqualF fuel p.2 (nthJS (sortJS (elemsJS b)) p.1)
        else
          (keysJS (spreadJS a)).all fun key =>
            areEqualF fuel (getJS (spreadJS a) key) (getJS (spreadJS b) key)
      else strictEq a b := rfl

theorem sizeVal_lt_of_mem_sortJS_elems {p : Nat × JSVal} {a : JSVal}
    (ha : isArrayJS a = true) (hp : p ∈ (sortJS (elemsJS a)).enum) :
    sizeVal p.2 < sizeVal a := by
  rcases isArrayJS_eq a ha with ⟨xs, rfl⟩
  have h1 : p.2 ∈ xs := mem_sortJS (snd_mem_of_mem_enum hp)
  have h2 := sizeVal_le_sizeList h1
  rw [show sizeVal (JSVal.arr xs) = sizeList xs + 1 from rfl]
  omega

theorem keysJS_ne_nil_of_mem {key : String} {fs : List (String × JSVal)}
    (h : key ∈ keysJS fs) : fs ≠ [] := by
  intro hnil
  subst hnil
  simp [keysJS, keysAux] at h

/-- The result of `areEqualF` does not depend on the fuel, as long as the
fuel is at least the size of the first argument (the recursion only ever
descends into subterms of the first argument). -/
theorem areEqualF_fuel_eq : ∀ (f : Nat) (a b : JSVal) (g : Nat),
    sizeVal a ≤ f → sizeVal a ≤ g → areEqualF f a b = areEqualF g a b := by
  intro f
  induction f using Nat.strong_induction_on with
  | _ f ih =>
    intro a b g hf hg
    cases f with
    | zero => exact absurd hf (by have := sizeVal_pos a; omega)
    | succ fp =>
      cases g with
      | zero => exact absurd hg (by have := sizeVal_pos a; omega)
      | succ gp =>
        rw [areEqualF_succ, areEqualF_succ]
        by_cases hguard : (typeofJS a == "object" && typeofJS b == "object" &&
            !isNullJS a && !isNullJS b) = true
        · rw [if_pos hguard, if_pos hguard]
          by_cases harr : (isArrayJS a && isArrayJS b) = true
          · rw [if_pos harr, if_pos harr]
            apply listAllCongr
            intro p hp
            have hsize : sizeVal p.2 < sizeVal a :=
              sizeVal_lt_of_mem_sortJS_elems ((Bool.and_eq_true _ _).mp harr).1 hp
            exact ih fp (Nat.lt_succ_self fp) p.2 _ gp (by omega) (by omega)
          · rw [if_neg harr, if_neg harr]
            apply listAllCongr
            intro key hkey
            have hne : spreadJS a ≠ [] := keysJS_ne_nil_of_mem hkey
            have hsize := sizeVal_getJS_spread_lt a key hne
            exact ih fp (Nat.lt_succ_self fp) _ _ gp (by omega) (by omega)
        · rw [if_neg hguard, if_neg hguard]

/-- C4: the claim states that an array `a` never compares equal to a
non-array `b`.  It does: when `b` is a non-null object that is not an
array, the comparison falls into the record branch, which checks only the
keys of the spread of `a` — and the empty array has none. -/
theorem c4_counterexample : areEqual (.arr []) (.obj []) = true := by decide

/-- C4 (amended): when both arguments are arrays, `areEqual` returns true
iff each position of the sorted copy of the **first** argument is
recursively equal to the same position of the sorted copy of the second
(positions past the first argument's length are not checked); when `b` is
`null` or not object-typed, the result is `false`.  A non-array
object-typed `b` is instead compared through the record branch and can
compare equal (see the counterexample `areEqual([], {}) = true`). -/
theorem c4_amended :
    (∀ xs ys : List JSVal,
      (areEqual (.arr xs) (.arr ys) = true ↔
        ∀ i, i < (sortJS xs).length →
          areEqual (nthJS (sortJS xs) i) (nthJS (sortJS ys) i) = true)) ∧
    (∀ (xs : List JSVal) (b : JSVal), typeofJS b ≠ "object" ∨ b = .null →
      areEqual (.arr xs) b = false) := by
  constructor
  · intro xs ys
    rw [show areEqual (.arr xs) (.arr ys) =
        ((sortJS xs).enum.all fun p =>
          areEqualF (sizeList xs) p.2 (nthJS (sortJS ys) p.1)) from rfl]
    have hcongr : ((sortJS xs).enum.all fun p =>
          areEqualF (sizeList xs) p.2 (nthJS (sortJS ys) p.1)) =
        ((sortJS xs).enum.all fun p => areEqual p.2 (nthJS (sortJS ys) p.1)) := by
      apply listAllCongr
      intro p hp
      have h1 : p.2 ∈ xs := mem_sortJS (snd_mem_of_mem_enum hp)
      have h2 := sizeVal_le_sizeList h1
      exact areEqualF_fuel_eq (sizeList xs) p.2 _ (sizeVal p.2) (by omega) (le_refl _)
    rw [hcongr, List.all_eq_true, List.forall_mem_enum]
    constructor
    · intro h i hi
      have := h i hi
      rwa [nthJS, List.getD_eq_getElem _ _ hi]
    · intro h i hi
      have := h i hi
      rwa [nthJS, List.getD_eq_getElem _ _ hi] at this
  · intro xs b hb
    rw [show areEqual (.arr xs) b = areEqualF (sizeList xs + 1) (.arr xs) b from rfl,
      areEqualF_succ]
    have hguard : (typeofJS (.arr xs) == "object" && typeofJS b == "object" &&
        !isNullJS (.arr xs) && !isNullJS b) = false := by
      rcases hb with h | h
      · have ht : (typeofJS b == "object") = false := by
          cases hcb : typeofJS b == "object"
          · rfl
          · exact absurd (by simpa using hcb) h
        rw [ht]
        simp
      · subst h
        rfl
    rw [if_neg (by simp [hguard])]
    cases b <;>
      first
        | rfl
        | (rename_i x; cases x <;> rfl)

/-- Witness for C4: the `b = undefined` instance of the second part, and
a concrete order-insensitive equality via the first part. -/
theorem c4_witness :
    (typeofJS JSVal.undefined ≠ "object" ∨ JSVal.undefined = .null) ∧
    areEqual (.arr [.num (.int 1)]) JSVal.undefined = false ∧
    areEqual (.arr [.num (.int 1), .num (.int 2)])
      (.arr [.num (.int 2), .num (.int 1)]) = true := by
  refine ⟨Or.inl (by decide),
    c4_amended.2 [.num (.int 1)] JSVal.undefined (Or.inl (by decide)), ?_⟩
  exact (c4_amended.1 [.num (.int 1), .num (.int 2)] [.num (.int 2), .num (.int 1)]).mpr
    (by decide)
